import Mathlib

/-!
# Verification of the TDA channel-normalization pipeline

Shallow embedding of the core pipeline of the `tda-processing` repository:

* `functions.py` — `find_reference` (reference-slice selection by robust
  SNR + neurite scoring) and `process_channel` (histogram matching +
  median filtering of every z-slice against the reference slice);
* `main.py` — `ImageSaverWorker._save_image` (channel-order resolution,
  channel-count validation, RGB stacking, uint8 cast),
  `MainWindow.extract_lsm_metadata` (vendor metadata → scaling params),
  `MainWindow.update_progress` (aggregate per-file progress percentage).

2D slices are `List (List ℚ)` (rows of pixels), z-stacks are lists of
slices, and a per-file set of processed channels is a list of stacks
indexed by channel.  The external library routines `gaussian_filter`
(scipy) and `skeletonize` (skimage) are taken as function parameters:
every theorem below holds for an arbitrary choice of these functions.
`match_histograms` (skimage), `median_filter` (scipy, reflect boundary)
and `np.percentile` / `np.median` (linear-interpolation method) are
embedded concretely.
-/

namespace TDA

/-- A 2D z-slice: a list of pixel rows with rational intensities
(`float64` in the source). -/
abbrev QSlice := List (List ℚ)

/-- A z-stack of one channel: a list of 2D slices. -/
abbrev QStack := List QSlice

/-- Ascending sort, as used by `np.percentile` / `np.median`. -/
def npSort (l : List ℚ) : List ℚ := l.insertionSort (· ≤ ·)

/-- Floor of a rational, truncated to `ℕ` (kernel-computable: for the
reduced fraction `num/den` with `den > 0`, Euclidean division by the
denominator is the floor). -/
def floorToNat (q : ℚ) : ℕ := (q.num.ediv (q.den : ℤ)).toNat

/-- Model of `np.percentile(l, q)` with the default linear-interpolation method:
virtual position `q/100 * (n-1)` in the sorted data, linearly
interpolated between the two bracketing order statistics. -/
def npPercentile (l : List ℚ) (q : ℚ) : ℚ :=
  let s := npSort l
  let pos : ℚ := q / 100 * ((l.length : ℚ) - 1)
  let i : ℕ := floorToNat pos
  let lo := s.getD i 0
  lo + (pos - (i : ℚ)) * (s.getD (i + 1) lo - lo)

/-- Model of `np.median`, i.e. the 50th percentile (average of the two middle
order statistics for even length). -/
def npMedian (l : List ℚ) : ℚ := npPercentile l 50

/-- Model of `np.mean`. -/
def npMean (l : List ℚ) : ℚ := l.sum / l.length

/-- Noise estimate of `find_reference` (functions.py lines 37-41): the
median absolute deviation of the (denoised) intensities about their
median, scaled by 1.4826, floored at `1e-6`. -/
def noiseOf (flat : List ℚ) : ℚ :=
  let medianVal := npMedian flat
  let mad := npMedian (flat.map (fun x => |x - medianVal|))
  let noise := mad * (14826 / 10000)
  if noise < 1 / 1000000 then 1 / 1000000 else noise

/-- Model of `np.sum` over a boolean mask: the number of `true` pixels. -/
def countTrue (mask : List (List Bool)) : ℕ :=
  (mask.map (fun row => row.countP id)).sum

/-- Composite score of one z-slice (body of the loop of
`find_reference`, functions.py lines 32-59).  `gauss` stands for
`scipy.ndimage.gaussian_filter(·, sigma)` and `skel` for
`skimage.morphology.skeletonize`; both are arbitrary. -/
def compositeScore (gauss : QSlice → QSlice)
    (skel : List (List Bool) → List (List Bool))
    (percentile neuriteWeight : ℚ) (sliceData : QSlice) : ℚ :=
  let denoised := gauss sliceData
  let flat := denoised.flatten
  let background := npPercentile flat percentile
  let noise := noiseOf flat
  let aboveBg := flat.filter (fun x => decide (background < x))
  let signal := if aboveBg.length ≠ 0 then npMean aboveBg else npMean flat
  let snr := (signal - background) / noise
  let thresh := background + noise
  let binary := denoised.map (fun row => row.map (fun x => decide (thresh < x)))
  let neuriteLength := countTrue (skel binary)
  let area := denoised.length * (denoised.headD []).length
  snr + neuriteWeight * ((neuriteLength : ℚ) / (area : ℚ))

/-- One step of the best-slice loop of `find_reference`:
`best_score` starts at `-np.inf` (modelled by `none`), and is replaced
whenever the current composite score is strictly greater. -/
def bestStep (score : ℕ → ℚ) (best : Option ℚ × ℕ) (i : ℕ) : Option ℚ × ℕ :=
  match best.1 with
  | none => (some (score i), i)
  | some b => if b < score i then (some (score i), i) else best

/-- Embedding of `find_reference` (functions.py lines 27-69): scan all z-slices,
return the index of the first slice attaining the maximal composite
score; `best_index` is initialized to `0`, so an empty stack yields `0`. -/
def find_reference (gauss : QSlice → QSlice)
    (skel : List (List Bool) → List (List Bool))
    (percentile neuriteWeight : ℚ) (channel : QStack) : ℕ :=
  let score := fun i =>
    compositeScore gauss skel percentile neuriteWeight (channel.getD i [])
  ((List.range channel.length).foldl (bestStep score) (none, 0)).2

/-! ## `ImageSaverWorker._save_image` (main.py lines 113-155)

The per-file mapping `self.processed_channels` is populated with keys
`0..num_channels-1` (one `ImageProcessorWorker` per `channel_idx`), so it
is modelled as a list of stacks indexed by channel.  `_save_image` first
resolves the channel order (empty order falls back to
`range(len(processed_channels))`), then validates it, then builds
`ordered_processed[channel_order[i]]` planes, stacks them, transposes
`(plane, z, y, x) → (z, plane, y, x)` and casts to `uint8`. -/

/-- Errors `_save_image` can raise before writing. -/
inductive SaveError where
  | insufficientChannels
  | channelCountMismatch (expected got : ℕ)
  | indexOutOfRange
  deriving DecidableEq, Repr

/-- Channel-order resolution (main.py lines 115-117): a missing or empty
`channel_order` falls back to `0..len(processed_channels)-1`. -/
def resolveOrder (scalingOrder : List ℕ) (numProcessed : ℕ) : List ℕ :=
  if scalingOrder.isEmpty then List.range numProcessed else scalingOrder

/-- Model of `np.zeros_like` on a stack. -/
def zerosLike (s : QStack) : QStack :=
  s.map (fun sl => sl.map (fun row => row.map (fun _ => (0 : ℚ))))

/-- The list-comprehension of main.py lines 127-130: plane `i` (for
`i < len(processed_channels)`) is `ordered_processed[channel_order[i]]`
when `i < len(channel_order)`, else a zero stack; a channel-order entry
outside `0..len(processed_channels)-1` is a Python `IndexError`,
modelled as `none`. -/
def orderedPlanes (order : List ℕ) (processed : List QStack) : Option (List QStack) :=
  if ∀ i < processed.length, i < order.length → order.getD i 0 < processed.length then
    some ((List.range processed.length).map (fun i =>
      if i < order.length then processed.getD (order.getD i 0) []
      else zerosLike (processed.getD 0 [])))
  else none

/-- Model of `rgb_image.transpose((1, 0, 2, 3))` (main.py line 131): from
`(plane, z, y, x)` to `(z, plane, y, x)`. -/
def transposeZC (planes : List QStack) : List (List QSlice) :=
  (List.range (planes.getD 0 []).length).map (fun z => planes.map (fun p => p.getD z []))

/-- Model of the `np.float64 → np.uint8` cast (main.py line 132): truncation toward
zero followed by reduction modulo `2^8` — a wrap-around, not a clip. -/
def uint8OfRat (q : ℚ) : ℕ :=
  ((if 0 ≤ q then q.num.ediv (q.den : ℤ) else -((-q).num.ediv ((-q).den : ℤ))).emod 256).toNat

/-- Model of `astype(np.uint8)` over the whole transposed volume. -/
def castVolume (v : List (List QSlice)) : List (List (List (List ℕ))) :=
  v.map (fun cs => cs.map (fun sl => sl.map (fun row => row.map uint8OfRat)))

/-- Embedding of `ImageSaverWorker._save_image` (main.py lines 113-155), up to the
assembled uint8 volume handed to `tifffile.imwrite`:
1. resolve `channel_order` (empty → identity over processed channels);
2. `len(channel_order) < 2` → `"Insufficient channels"` error;
3. `len(processed_channels) != len(set(channel_order))` → channel-count
   mismatch error;
4. otherwise reorder, stack, transpose, cast and save. -/
def save_image (scalingOrder : List ℕ) (processed : List QStack) :
    Except SaveError (List (List (List (List ℕ)))) :=
  let order := resolveOrder scalingOrder processed.length
  if order.length < 2 then
    Except.error SaveError.insufficientChannels
  else if processed.length ≠ order.dedup.length then
    Except.error (SaveError.channelCountMismatch order.dedup.length processed.length)
  else
    match orderedPlanes order processed with
    | none => Except.error SaveError.indexOutOfRange
    | some planes => Except.ok (castVolume (transposeZC planes))

/-- Color-plane `i` of a `(z, plane, y, x)` volume: the stack of the
`i`-th entries of every z-slice. -/
def outputPlane (v : List (List QSlice)) (i : ℕ) : QStack :=
  v.map (fun cs => cs.getD i [])

deriving instance DecidableEq for Except

/-! ## `process_channel` (functions.py lines 72-107) -/

/-- Minimum of a list of rationals (`0` for the empty list). -/
def listMin : List ℚ → ℚ
  | [] => 0
  | x :: xs => xs.foldl min x

/-- Maximum of a list of rationals (`0` for the empty list). -/
def listMax : List ℚ → ℚ
  | [] => 0
  | x :: xs => xs.foldl max x

/-- Model of `np.unique` of a value list: sorted distinct values. -/
def uniqueSorted (l : List ℚ) : List ℚ := (npSort l).dedup

/-- Empirical CDF value (quantile) of `v` in `flat`:
`cumsum(counts)/size` evaluated at `v`, i.e. the fraction of entries
`≤ v`. -/
def cdfQuantile (flat : List ℚ) (v : ℚ) : ℚ :=
  (flat.countP (fun x => decide (x ≤ v)) : ℚ) / (flat.length : ℚ)

/-- Model of `np.interp x xp fp` over breakpoint pairs `(xp, fp)` with `xp`
increasing: constant continuation outside the breakpoint range, linear
interpolation inside. -/
def npInterp (x : ℚ) : List (ℚ × ℚ) → ℚ
  | [] => 0
  | [p] => p.2
  | p :: q :: rest =>
    if x ≤ p.1 then p.2
    else if x ≤ q.1 then p.2 + (x - p.1) * (q.2 - p.2) / (q.1 - p.1)
    else npInterp x (q :: rest)

/-- Model of `skimage.exposure.match_histograms(source, template)` for one 2D
image (`_match_cumulative_cdf`): each source pixel value is mapped to
`np.interp(its source quantile, template quantiles, template values)`. -/
def match_histograms (source template : QSlice) : QSlice :=
  let srcFlat := source.flatten
  let tmplFlat := template.flatten
  let pairs := (uniqueSorted tmplFlat).map (fun v => (cdfQuantile tmplFlat v, v))
  source.map (fun row => row.map (fun p => npInterp (cdfQuantile srcFlat p) pairs))

/-- Boundary reflection of scipy's default `mode='reflect'`
(`(c b a | a b c | c b a)`), for indices within one step of the array
bounds (the only ones a 3×3 window produces). -/
def reflectIdx (n : ℕ) (z : ℤ) : ℕ :=
  if z < 0 then (-(z + 1)).toNat
  else if (n : ℤ) ≤ z then ((2 * n : ℤ) - 1 - z).toNat
  else z.toNat

/-- Pixel access with defaults (only used at reflected, in-range
indices). -/
def getPixel (m : QSlice) (i j : ℕ) : ℚ := (m.getD i []).getD j 0

/-- The 3×3 reflected neighborhood of pixel `(i, j)`. -/
def neighborhood3 (m : QSlice) (i j : ℕ) : List ℚ :=
  ((List.range 3).map (fun (di : ℕ) => (List.range 3).map (fun (dj : ℕ) =>
    getPixel m (reflectIdx m.length ((i : ℤ) + (di : ℤ) - 1))
      (reflectIdx (m.getD 0 []).length ((j : ℤ) + (dj : ℤ) - 1))))).flatten

/-- Model of `scipy.ndimage.median_filter(·, size=3)`: each output pixel is the
rank-4 (0-based) entry of its sorted 3×3 reflected neighborhood. -/
def median_filter3 (m : QSlice) : QSlice :=
  (List.range m.length).map (fun i =>
    (List.range (m.getD 0 []).length).map (fun j =>
      (npSort (neighborhood3 m i j)).getD 4 0))

/-- Embedding of `process_channel` (functions.py lines 72-107), data path only (the
preview/reference callbacks do not affect the returned array): pick the
reference slice with `find_reference` (default parameters `sigma=1`,
`percentile=20`, `neurite_weight=1.0`), then histogram-match every
slice against `channel[reference]` and median-filter it; the results
are collected into the returned stack.  No cast or clip is applied. -/
def process_channel (gauss : QSlice → QSlice)
    (skel : List (List Bool) → List (List Bool)) (channel : QStack) : QStack :=
  let reference := find_reference gauss skel 20 1 channel
  channel.map (fun image =>
    median_filter3 (match_histograms image (channel.getD reference [])))

/-- A rectangular `r × c` slice. -/
def RectSlice (r c : ℕ) (m : QSlice) : Prop :=
  m.length = r ∧ ∀ row ∈ m, row.length = c

/-! ## `MainWindow.extract_lsm_metadata` (main.py lines 746-808) and the
coordinator's per-file metadata step (main.py lines 669-672) -/

/-- The canonical scaling/channel-order record `self.scaling_params`
(main.py lines 272-282; the `source` bookkeeping entry is omitted). -/
structure ScalingParams where
  VoxelSizeX : ℚ
  VoxelSizeY : ℚ
  VoxelSizeZ : ℚ
  resolution : ℚ
  lsm510 : ℕ
  lsm880 : ℕ
  channel_order : List ℕ
  zStep : ℚ
  deriving DecidableEq, Repr

/-- The initial value of `self.scaling_params` (main.py lines 272-282):
unit voxel sizes and resolution, no vendor flags, empty channel order. -/
def initialScalingParams : ScalingParams :=
  { VoxelSizeX := 1, VoxelSizeY := 1, VoxelSizeZ := 1, resolution := 1,
    lsm510 := 0, lsm880 := 0, channel_order := [], zStep := 0 }

/-- The fields of the vendor `lsm_metadata` block that
`extract_lsm_metadata` reads: voxel sizes in meters, channel display
colors as RGB(A) byte lists, channel count, acquisition track names. -/
structure LSMRawMeta where
  VoxelSizeX : ℚ
  VoxelSizeY : ℚ
  VoxelSizeZ : ℚ
  Colors : List (List ℕ)
  DimensionChannels : ℕ
  TrackNames : List String
  deriving DecidableEq

/-- The canonical color map of main.py lines 768-777: `tuple(color[:3])`
looked up among red → 0, green → 1, blue → 2; anything else is not
appended. -/
def colorToIndex (color : List ℕ) : Option ℕ :=
  match color.take 3 with
  | [0, 255, 0] => some 1
  | [255, 0, 0] => some 0
  | [0, 0, 255] => some 2
  | _ => none

/-- Channel-order derivation (main.py lines 766-781): keep the mapped
index of every recognized color, in order; only if no color at all was
recognized (or the color list is absent/empty) fall back to the
identity order `0..DimensionChannels-1`. -/
def deriveChannelOrder (colors : List (List ℕ)) (numChannels : ℕ) : List ℕ :=
  let order := colors.filterMap colorToIndex
  if order.isEmpty then List.range numChannels else order

/-- Microscope sub-variant flags from track names (main.py
lines 783-791). -/
def trackFlags (names : List String) : ℕ × ℕ :=
  names.foldl (fun acc name =>
    if name.toLower.startsWith "lsm510" then (1, acc.2)
    else if name.toLower.startsWith "lsm880" then (acc.1, 1)
    else acc) (0, 0)

/-- Embedding of `MainWindow.extract_lsm_metadata` (main.py lines 746-808).  A `none`
input models a file whose vendor metadata is missing or fails to parse
(the `except` branch, and the `if not tif.lsm_metadata` branch): the
method returns the empty record `{}`, modelled as `none`.  Voxel sizes
are converted from meters to micrometers; the resolution is the average
of the guarded reciprocals of the x/y voxel sizes. -/
def extract_lsm_metadata (raw : Option LSMRawMeta) : Option ScalingParams :=
  match raw with
  | none => none
  | some m =>
    let vx := m.VoxelSizeX * 1000000
    let vy := m.VoxelSizeY * 1000000
    let vz := m.VoxelSizeZ * 1000000
    let rx := if 0 < vx then 1 / vx else 0
    let ry := if 0 < vy then 1 / vy else 0
    let flags := trackFlags m.TrackNames
    some { VoxelSizeX := vx, VoxelSizeY := vy, VoxelSizeZ := vz,
           resolution := (rx + ry) / 2,
           lsm510 := flags.1, lsm880 := flags.2,
           channel_order := deriveChannelOrder m.Colors m.DimensionChannels,
           zStep := vz }

/-- The coordinator's metadata step (main.py lines 669-672):
`metadata = self.extract_lsm_metadata(...); if metadata:
self.scaling_params.update(metadata)` — the empty record is falsy and
leaves `self.scaling_params` untouched; a full record overwrites every
scaling field. -/
def applyMetadata (params : ScalingParams) (metadata : Option ScalingParams) : ScalingParams :=
  match metadata with
  | none => params
  | some m => m

/-- The scaling parameters in effect while the last file of a batch is
processed: `run_processing` applies the metadata step once per file to
the one shared `self.scaling_params` instance. -/
def paramsAfterFiles (files : List (Option LSMRawMeta)) : ScalingParams :=
  files.foldl (fun p f => applyMetadata p (extract_lsm_metadata f)) initialScalingParams

/-- A vendor metadata block with non-default voxel sizes (2 µm) and a
green/red/blue channel color list, used as the first file of a batch in
concrete scenarios. -/
def rawA : LSMRawMeta :=
  { VoxelSizeX := 1 / 500000, VoxelSizeY := 1 / 500000, VoxelSizeZ := 1 / 500000,
    Colors := [[0, 255, 0], [255, 0, 0], [0, 0, 255]],
    DimensionChannels := 3, TrackNames := [] }

/-! ## `MainWindow.update_progress` (main.py lines 822-843) -/

/-- Accumulated `self.total_progress` after a sequence of per-slice progress events
(each worker emits `progress.emit(1)` per processed slice; the handler
does `self.total_progress += value`). -/
def runProgressEvents (events : List ℕ) : ℕ :=
  events.foldl (fun acc v => acc + v) 0

/-- The percentage `update_progress` stores and displays (main.py
lines 823-830): `total_progress / (workers[0].total_work *
expected_total) * 100`, clamped to `100`.  It is only computed when
`expected_total > 0` (`none` otherwise: with no channels the Python
code would leave `progress_percentage` unbound and raise `NameError`). -/
def reportedPercentage (totalWorkPerChannel expectedTotal totalProgress : ℕ) : Option ℚ :=
  if 0 < expectedTotal then
    some (min ((totalProgress : ℚ) / ((totalWorkPerChannel : ℚ) * (expectedTotal : ℚ)) * 100) 100)
  else none

/-! ## Theorems -/

/-- Invariant of the `find_reference` loop: after scanning slices
`0..n-1` (`n ≥ 1`), the accumulator holds the score and index of the
first slice attaining the maximal composite score so far. -/
lemma bestStep_foldl_spec (score : ℕ → ℚ) :
    ∀ n : ℕ, 0 < n →
      ∃ r : ℕ, (List.range n).foldl (bestStep score) (none, 0) = (some (score r), r) ∧
        r < n ∧ (∀ j < n, score j ≤ score r) ∧ (∀ j < r, score j < score r) := by
  intro n
  induction n with
  | zero => intro h; exact absurd h (lt_irrefl 0)
  | succ m ih =>
    intro _
    rcases Nat.eq_zero_or_pos m with hm | hm
    · subst hm
      refine ⟨0, ?_, Nat.zero_lt_one, ?_, ?_⟩
      · simp [List.range_succ, bestStep]
      · intro j hj; interval_cases j; exact le_refl _
      · intro j hj; exact absurd hj (Nat.not_lt_zero j)
    · obtain ⟨r, hfold, hr, hmax, hstrict⟩ := ih hm
      rw [List.range_succ, List.foldl_append, hfold]
      by_cases hcmp : score r < score m
      · refine ⟨m, ?_, Nat.lt_succ_self m, ?_, ?_⟩
        · simp [bestStep, List.foldl, hcmp]
        · intro j hj
          rcases Nat.lt_succ_iff_lt_or_eq.mp hj with hj' | hj'
          · exact le_of_lt (lt_of_le_of_lt (hmax j hj') hcmp)
          · subst hj'; exact le_refl _
        · intro j hj; exact lt_of_le_of_lt (hmax j hj) hcmp
      · refine ⟨r, ?_, Nat.lt_succ_of_lt hr, ?_, hstrict⟩
        · simp [bestStep, List.foldl, hcmp]
        · intro j hj
          rcases Nat.lt_succ_iff_lt_or_eq.mp hj with hj' | hj'
          · exact hmax j hj'
          · subst hj'; exact le_of_not_lt hcmp

/-- Lemma: `find_reference` on a nonempty stack lands at the least argmax. -/
lemma find_reference_spec (gauss : QSlice → QSlice)
    (skel : List (List Bool) → List (List Bool))
    (percentile neuriteWeight : ℚ) (channel : QStack) (h : channel ≠ []) :
    find_reference gauss skel percentile neuriteWeight channel < channel.length ∧
    (∀ j < channel.length,
      compositeScore gauss skel percentile neuriteWeight (channel.getD j []) ≤
        compositeScore gauss skel percentile neuriteWeight
          (channel.getD (find_reference gauss skel percentile neuriteWeight channel) [])) ∧
    (∀ j < find_reference gauss skel percentile neuriteWeight channel,
      compositeScore gauss skel percentile neuriteWeight (channel.getD j []) <
        compositeScore gauss skel percentile neuriteWeight
          (channel.getD (find_reference gauss skel percentile neuriteWeight channel) [])) := by
  have hn : 0 < channel.length := List.length_pos.mpr h
  obtain ⟨r, hfold, hr, hmax, hstrict⟩ :=
    bestStep_foldl_spec
      (fun i => compositeScore gauss skel percentile neuriteWeight (channel.getD i []))
      channel.length hn
  have hfr : find_reference gauss skel percentile neuriteWeight channel = r := by
    show ((List.range channel.length).foldl
      (bestStep fun i =>
        compositeScore gauss skel percentile neuriteWeight (channel.getD i []))
      (none, 0)).2 = r
    rw [hfold]
  rw [hfr]
  exact ⟨hr, hmax, hstrict⟩

/-- Lemma: `find_reference` on an empty stack returns the initial `best_index = 0`. -/
lemma find_reference_nil (gauss : QSlice → QSlice)
    (skel : List (List Bool) → List (List Bool)) (percentile neuriteWeight : ℚ) :
    find_reference gauss skel percentile neuriteWeight [] = 0 := rfl

/-- C3: for every z-stack with at least one slice (and any choice of the
library filters), `find_reference` returns an index in `[0, number of
slices)`, namely the smallest index attaining the maximal composite
score — a strictly earlier index always has a strictly smaller score. -/
theorem find_reference_in_range_least_argmax (gauss : QSlice → QSlice)
    (skel : List (List Bool) → List (List Bool))
    (percentile neuriteWeight : ℚ) (channel : QStack) (h : channel ≠ []) :
    find_reference gauss skel percentile neuriteWeight channel < channel.length ∧
    (∀ j < channel.length,
      compositeScore gauss skel percentile neuriteWeight (channel.getD j []) ≤
        compositeScore gauss skel percentile neuriteWeight
          (channel.getD (find_reference gauss skel percentile neuriteWeight channel) [])) ∧
    (∀ j < find_reference gauss skel percentile neuriteWeight channel,
      compositeScore gauss skel percentile neuriteWeight (channel.getD j []) <
        compositeScore gauss skel percentile neuriteWeight
          (channel.getD (find_reference gauss skel percentile neuriteWeight channel) [])) :=
  find_reference_spec gauss skel percentile neuriteWeight channel h

/-- Witness for C3 at a concrete two-slice stack. -/
theorem find_reference_in_range_least_argmax_witness :
    ([[[(0 : ℚ)]], [[(5 : ℚ)]]] : QStack) ≠ [] ∧
      find_reference id id 20 1 [[[(0 : ℚ)]], [[(5 : ℚ)]]] < 2 :=
  ⟨by decide,
    (find_reference_in_range_least_argmax id id 20 1
      [[[(0 : ℚ)]], [[(5 : ℚ)]]] (by decide)).1⟩

/-- C4 counterexample: `find_reference` does not return a distinguishable
no-reference signal on an empty stack.  It returns the initial
`best_index = 0`, the very same value it returns for a nonempty stack
whose best slice is slice 0 — the two cases cannot be told apart from
the return value. -/
theorem find_reference_empty_stack_counterexample :
    find_reference id id 20 1 ([] : QStack) = 0 ∧
      find_reference id id 20 1 [[[(7 : ℚ)]]] = 0 :=
  ⟨rfl, by decide⟩

/-- C4 (amended): `find_reference` never fails and never produces a
distinguishable no-reference signal: on the empty stack it returns the
index `0` (indistinguishable from a valid index), and on every nonempty
stack it returns a valid in-range index. -/
theorem find_reference_no_failure_signal (gauss : QSlice → QSlice)
    (skel : List (List Bool) → List (List Bool))
    (percentile neuriteWeight : ℚ) (channel : QStack) :
    (channel = [] → find_reference gauss skel percentile neuriteWeight channel = 0) ∧
    (channel ≠ [] →
      find_reference gauss skel percentile neuriteWeight channel < channel.length) := by
  constructor
  · intro h; subst h; exact find_reference_nil gauss skel percentile neuriteWeight
  · intro h; exact (find_reference_spec gauss skel percentile neuriteWeight channel h).1

/-- Witness for C4 (amended) at concrete stacks. -/
theorem find_reference_no_failure_signal_witness :
    find_reference id id 20 1 ([] : QStack) = 0 ∧
      find_reference id id 20 1 [[[(9 : ℚ)]]] < 1 :=
  ⟨(find_reference_no_failure_signal id id 20 1 ([] : QStack)).1 rfl,
    by have := (find_reference_no_failure_signal id id 20 1 [[[(9 : ℚ)]]]).2 (by decide)
       simpa using this⟩

/-- C9: for every 2D slice with at least one pixel — in particular a
constant-valued slice, where the median absolute deviation is `0` — the
noise term `find_reference` divides by is at least the `1e-6` floor.
(The nonemptiness hypothesis matches the data model: `np.median` of a
zero-pixel slice would be NaN in the source.) -/
theorem slice_noise_floor (denoised : QSlice)
    (h : 0 < denoised.flatten.length) :
    1 / 1000000 ≤ noiseOf denoised.flatten := by
  have key : ∀ a : ℚ, 1 / 1000000 ≤ if a < 1 / 1000000 then 1 / 1000000 else a := by
    intro a
    split
    · exact le_refl _
    · next hlt => exact le_of_not_lt hlt
  exact key _

/-- Witness for C9 at a concrete constant 2×2 slice. -/
theorem slice_noise_floor_witness :
    0 < ([[ (5 : ℚ), 5], [5, 5]] : QSlice).flatten.length ∧
      1 / 1000000 ≤ noiseOf ([[ (5 : ℚ), 5], [5, 5]] : QSlice).flatten :=
  ⟨by decide, slice_noise_floor [[ (5 : ℚ), 5], [5, 5]] (by decide)⟩

/-- C10: whenever the resolved channel order (after the empty-order
fallback to `0..num_processed-1`) has fewer than 2 entries — in
particular for every single-channel volume — `_save_image` raises the
"Insufficient channels" error before assembling or writing anything, so
no output file is produced. -/
theorem save_image_insufficient_channels (scalingOrder : List ℕ) (processed : List QStack)
    (h : (resolveOrder scalingOrder processed.length).length < 2) :
    save_image scalingOrder processed = Except.error SaveError.insufficientChannels := by
  simp only [save_image]
  rw [if_pos h]

/-- Witness for C10: a single-channel volume with empty scaling order. -/
theorem save_image_insufficient_channels_witness :
    (resolveOrder [] (List.length [[[[(10 : ℚ)]]]])).length < 2 ∧
      save_image [] [[[[(10 : ℚ)]]]] = Except.error SaveError.insufficientChannels :=
  ⟨by decide, save_image_insufficient_channels [] [[[[(10 : ℚ)]]]] (by decide)⟩

/-- C1 counterexample: with `channel_order = [0, 1, 0]` and exactly 2
processed channels present, `len(set(channel_order)) = 2 =
len(processed_channels)`, so `_save_image` raises no mismatch error at
the claim's own example: it assembles the volume and the save proceeds. -/
theorem channel_count_mismatch_counterexample :
    save_image [0, 1, 0] [[[[(10 : ℚ)]]], [[[(20 : ℚ)]]]] =
      Except.ok [[[[10]], [[20]]]] := by decide

/-- C1 (amended): `_save_image` raises the channel-count-mismatch error
iff the number of processed channels differs from the number of
*distinct* entries of the resolved channel order (provided the order
has at least 2 entries; shorter orders hit the "Insufficient channels"
error first).  In particular `[0, 1, 0]` with 2 processed channels has
2 distinct entries and is saved without any error. -/
theorem channel_count_mismatch_iff (scalingOrder : List ℕ) (processed : List QStack)
    (h : 2 ≤ (resolveOrder scalingOrder processed.length).length) :
    save_image scalingOrder processed =
        Except.error (SaveError.channelCountMismatch
          (resolveOrder scalingOrder processed.length).dedup.length processed.length) ↔
      processed.length ≠ (resolveOrder scalingOrder processed.length).dedup.length := by
  have hnot : ¬ (resolveOrder scalingOrder processed.length).length < 2 := not_lt.mpr h
  simp only [save_image]
  rw [if_neg hnot]
  by_cases hm : processed.length = (resolveOrder scalingOrder processed.length).dedup.length
  · rw [if_neg (by simpa using hm)]
    constructor
    · intro heq
      exfalso
      rcases horder :
          orderedPlanes (resolveOrder scalingOrder processed.length) processed with _ | planes
      · rw [horder] at heq
        simp at heq
      · rw [horder] at heq
        simp at heq
    · intro hne
      exact absurd hm hne
  · rw [if_pos hm]
    simp [hm]

/-- Witness for C1 (amended): order `[0, 1]` with 3 processed channels
has 2 distinct entries ≠ 3 channels, so the mismatch error is raised. -/
theorem channel_count_mismatch_iff_witness :
    save_image [0, 1] [[[[(10 : ℚ)]]], [[[(20 : ℚ)]]], [[[(30 : ℚ)]]]] =
      Except.error (SaveError.channelCountMismatch
        (resolveOrder [0, 1]
          (List.length [[[[(10 : ℚ)]]], [[[(20 : ℚ)]]], [[[(30 : ℚ)]]]])).dedup.length
        (List.length [[[[(10 : ℚ)]]], [[[(20 : ℚ)]]], [[[(30 : ℚ)]]]])) :=
  (channel_count_mismatch_iff [0, 1] [[[[(10 : ℚ)]]], [[[(20 : ℚ)]]], [[[(30 : ℚ)]]]]
    (by decide)).mpr (by decide)

/-- Helper: `getD` through a `map`, at an in-range index. -/
lemma getD_map_of_lt {α β : Type} (l : List α) (f : α → β) (i : ℕ) (h : i < l.length)
    (d : β) (d' : α) : (l.map f).getD i d = f (l.getD i d') := by
  rw [List.getD_eq_getElem?_getD, List.getD_eq_getElem?_getD, List.getElem?_map,
    List.getElem?_eq_getElem h]
  simp

/-- Helper: `getD` on `List.range`, at an in-range index. -/
lemma getD_range_of_lt (n i : ℕ) (h : i < n) (d : ℕ) : (List.range n).getD i d = i := by
  rw [List.getD_eq_getElem?_getD, List.getElem?_range h]
  rfl

/-- Helper: an in-range `getD` is a member. -/
lemma getD_mem_of_lt {α : Type} (l : List α) (i : ℕ) (h : i < l.length) (d : α) :
    l.getD i d ∈ l := by
  rw [List.getD_eq_getElem?_getD, List.getElem?_eq_getElem h]
  exact List.getElem_mem h

/-- Helper: reading every index of a list back off gives the list. -/
lemma map_getD_range {α : Type} (l : List α) (d : α) :
    (List.range l.length).map (fun i => l.getD i d) = l := by
  induction l with
  | nil => rfl
  | cons a t ih =>
    rw [List.length_cons, List.range_succ_eq_map, List.map_cons, List.map_map]
    simp only [List.getD_cons_zero, Function.comp_def, Nat.succ_eq_add_one,
      List.getD_cons_succ]
    rw [ih]

/-- C2: for every set of processed channels (sharing one z-extent, per
the volume shape invariant enforced by `np.stack`) and every channel
order accepted by the mismatch check, color-plane `i` of the assembled
(stacked and transposed) volume is exactly the processed array of
channel index `channel_order[i]`. -/
theorem assembled_plane_matches_order (scalingOrder : List ℕ) (processed : List QStack)
    (L : ℕ) (hz : ∀ s ∈ processed, s.length = L)
    (hacc : processed.length = (resolveOrder scalingOrder processed.length).dedup.length)
    (planes : List QStack)
    (hp : orderedPlanes (resolveOrder scalingOrder processed.length) processed = some planes)
    (i : ℕ) (hi : i < processed.length) :
    outputPlane (transposeZC planes) i =
      processed.getD ((resolveOrder scalingOrder processed.length).getD i 0) [] := by
  set o := resolveOrder scalingOrder processed.length with ho
  set n := processed.length with hn
  rw [orderedPlanes] at hp
  split at hp
  case isFalse => exact absurd hp (by simp)
  case isTrue hvalid =>
  have hplanes : planes = (List.range n).map (fun j =>
      if j < o.length then processed.getD (o.getD j 0) []
      else zerosLike (processed.getD 0 [])) := (Option.some.inj hp).symm
  have hlen_o : n ≤ o.length :=
    le_trans (le_of_eq hacc) (List.Sublist.length_le (List.dedup_sublist o))
  have hio : i < o.length := lt_of_lt_of_le hi hlen_o
  have hvalid_i : o.getD i 0 < n := hvalid i hi hio
  have h0n : 0 < n := lt_of_le_of_lt (Nat.zero_le i) hi
  have h0o : 0 < o.length := lt_of_lt_of_le h0n hlen_o
  have hplanes_len : planes.length = n := by rw [hplanes]; simp
  have hPgen : ∀ j, j < n → j < o.length →
      planes.getD j [] = processed.getD (o.getD j 0) [] := by
    intro j hj hjo
    rw [hplanes, getD_map_of_lt _ _ j (by simpa using hj) _ 0,
      getD_range_of_lt n j hj, if_pos hjo]
  have hPi := hPgen i hi hio
  have hP0 := hPgen 0 h0n h0o
  have hP0len : (planes.getD 0 []).length = L := by
    rw [hP0]
    exact hz _ (getD_mem_of_lt processed _ (hvalid 0 h0n h0o) [])
  have hPilen : (processed.getD (o.getD i 0) []).length = L :=
    hz _ (getD_mem_of_lt processed _ hvalid_i [])
  rw [outputPlane, transposeZC, hP0len, List.map_map]
  have hcomp : ∀ z ∈ List.range L,
      ((fun cs => cs.getD i ([] : QSlice)) ∘
        (fun z => planes.map (fun p => p.getD z []))) z =
      (processed.getD (o.getD i 0) []).getD z [] := by
    intro z _
    simp only [Function.comp_def]
    rw [getD_map_of_lt planes _ i (by rw [hplanes_len]; exact hi) _ [], hPi]
  rw [List.map_congr_left hcomp, ← hPilen,
    map_getD_range (processed.getD (o.getD i 0) []) []]

/-- Witness for C2 at the claim's example: `channel_order = [1, 0, 2]`
with three single-pixel constant channels 10, 20, 30 — plane 0 of the
assembled volume holds the channel-1 array (value 20). -/
theorem assembled_plane_matches_order_witness :
    orderedPlanes (resolveOrder [1, 0, 2] 3)
        [[[[(10 : ℚ)]]], [[[(20 : ℚ)]]], [[[(30 : ℚ)]]]] =
      some [[[[(20 : ℚ)]]], [[[(10 : ℚ)]]], [[[(30 : ℚ)]]]] ∧
    outputPlane (transposeZC [[[[(20 : ℚ)]]], [[[(10 : ℚ)]]], [[[(30 : ℚ)]]]]) 0 =
      [[[(20 : ℚ)]]] := by
  constructor
  · decide
  · have happ := assembled_plane_matches_order [1, 0, 2]
      [[[[(10 : ℚ)]]], [[[(20 : ℚ)]]], [[[(30 : ℚ)]]]] 1 (by decide) (by decide)
      [[[[(20 : ℚ)]]], [[[(10 : ℚ)]]], [[[(30 : ℚ)]]]] (by decide) 0 (by decide)
    rw [happ]
    decide

/-- C5 counterexample: after a first file whose metadata parses to a
non-default record (`rawA`: green/red/blue color list, so channel order
`[1, 0, 2]`), a second file whose metadata parsing fails (empty record)
is processed with the first file's carried-over scaling parameters, not
with the identity/empty channel order of the defaults. -/
theorem metadata_failure_carryover_counterexample :
    extract_lsm_metadata none = none ∧
    (paramsAfterFiles [some rawA, none]).channel_order = [1, 0, 2] ∧
    (paramsAfterFiles [some rawA, none]).channel_order ≠
      initialScalingParams.channel_order := by
  refine ⟨rfl, by decide, by decide⟩

/-- C5 (amended): when vendor metadata parsing fails,
`extract_lsm_metadata` returns the empty record and the coordinator's
`if metadata:` guard leaves `self.scaling_params` entirely unchanged;
the failing file is therefore processed with the unit-scale defaults
and the empty (identity-fallback) channel order only when no earlier
file in the batch supplied metadata — otherwise with the values carried
over from the last successful extraction. -/
theorem metadata_failure_keeps_params (p : ScalingParams)
    (files : List (Option LSMRawMeta)) (hall : ∀ f ∈ files, f = none) :
    applyMetadata p (extract_lsm_metadata none) = p ∧
    paramsAfterFiles files = initialScalingParams := by
  refine ⟨rfl, ?_⟩
  have key : ∀ (fs : List (Option LSMRawMeta)) (q : ScalingParams), (∀ f ∈ fs, f = none) →
      fs.foldl (fun a f => applyMetadata a (extract_lsm_metadata f)) q = q := by
    intro fs
    induction fs with
    | nil => intro q _; rfl
    | cons f t ih =>
      intro q hmem
      have hf : f = none := hmem f (List.mem_cons_self f t)
      subst hf
      rw [List.foldl_cons]
      exact ih q (fun g hg => hmem g (List.mem_cons_of_mem _ hg))
  exact key files initialScalingParams hall

/-- Witness for C5 (amended): a batch of two metadata-failing files
keeps the default scaling parameters throughout. -/
theorem metadata_failure_keeps_params_witness :
    (∀ f ∈ ([none, none] : List (Option LSMRawMeta)), f = none) ∧
      paramsAfterFiles [none, none] = initialScalingParams :=
  ⟨by decide,
    (metadata_failure_keeps_params initialScalingParams [none, none] (by decide)).2⟩

/-- C7 counterexample: a color list with one recognized (red) and one
unrecognized color yields the partial order `[0]`, not the identity
ordering `[0, 1]` of a 2-channel file — contrary to the claim, an
unrecognized color in the list does not trigger the identity fallback. -/
theorem channel_order_unrecognized_counterexample :
    deriveChannelOrder [[255, 0, 0], [7, 7, 7]] 2 = [0] ∧
      deriveChannelOrder [[255, 0, 0], [7, 7, 7]] 2 ≠ List.range 2 := by decide

/-- C7 (amended): the channel order is derived from the recorded colors
via the canonical red → 0, green → 1, blue → 2 mapping with
unrecognized colors skipped; the identity fallback `0..num_channels-1`
applies exactly when the color list is absent/empty or no color in it
is recognized — a partially recognized list keeps just its recognized
entries. -/
theorem channel_order_derivation (colors : List (List ℕ)) (n : ℕ) :
    colorToIndex [255, 0, 0] = some 0 ∧
    colorToIndex [0, 255, 0] = some 1 ∧
    colorToIndex [0, 0, 255] = some 2 ∧
    deriveChannelOrder [] n = List.range n ∧
    ((∀ c ∈ colors, colorToIndex c = none) →
      deriveChannelOrder colors n = List.range n) ∧
    ((∃ c ∈ colors, (colorToIndex c).isSome) →
      deriveChannelOrder colors n = colors.filterMap colorToIndex) := by
  refine ⟨rfl, rfl, rfl, rfl, ?_, ?_⟩
  · intro hall
    have hnil : colors.filterMap colorToIndex = [] := List.filterMap_eq_nil_iff.mpr hall
    rw [deriveChannelOrder]
    simp [hnil]
  · rintro ⟨c, hc, hsome⟩
    have hne : colors.filterMap colorToIndex ≠ [] := by
      intro hnil
      rw [List.filterMap_eq_nil_iff] at hnil
      rw [hnil c hc] at hsome
      simp at hsome
    rw [deriveChannelOrder]
    simp [List.isEmpty_iff, hne]

/-- Witness for C7 (amended) at concrete color lists. -/
theorem channel_order_derivation_witness :
    deriveChannelOrder [[9, 9, 9]] 2 = List.range 2 ∧
      deriveChannelOrder [[0, 255, 0], [255, 0, 0]] 2 = [1, 0] := by
  constructor
  · exact (channel_order_derivation [[9, 9, 9]] 2).2.2.2.2.1 (by decide)
  · have hmix := (channel_order_derivation [[0, 255, 0], [255, 0, 0]] 2).2.2.2.2.2
      ⟨[0, 255, 0], by decide, by decide⟩
    rw [hmix]
    decide

/-- C8: the per-file aggregate percentage reported after any sequence of
slice-completion events equals (sum of reported per-channel slice
counts) / (channel count × slices per channel) × 100, clamped to at
most 100; it is exactly 100 as soon as the accumulated total reaches
`channels × slices` (e.g. 20 unit events for a 2-channel,
10-slices-per-channel file). -/
theorem progress_percentage_formula (slices channels : ℕ) (events : List ℕ)
    (hch : 0 < channels) (hsl : 0 < slices) :
    reportedPercentage slices channels (runProgressEvents events) =
      some (min (((events.sum : ℚ) / ((channels : ℚ) * (slices : ℚ))) * 100) 100) ∧
    (events.sum = channels * slices →
      reportedPercentage slices channels (runProgressEvents events) = some 100) := by
  have hrun : runProgressEvents events = events.sum := by
    rw [runProgressEvents, List.sum_eq_foldl]
  have hc' : (0 : ℚ) < (channels : ℚ) := by exact_mod_cast hch
  have hs' : (0 : ℚ) < (slices : ℚ) := by exact_mod_cast hsl
  constructor
  · rw [reportedPercentage, if_pos hch, hrun, mul_comm (slices : ℚ) (channels : ℚ)]
  · intro hsum
    rw [reportedPercentage, if_pos hch, hrun, hsum]
    have hone : ((channels * slices : ℕ) : ℚ) / ((slices : ℚ) * (channels : ℚ)) = 1 := by
      push_cast
      rw [mul_comm]
      exact div_self (ne_of_gt (mul_pos hs' hc'))
    rw [hone, one_mul, min_self]

/-- Witness for C8: a 2-channel, 10-slice file reaches exactly 100 %
after 20 unit slice-completion events. -/
theorem progress_percentage_formula_witness :
    (List.replicate 20 1).sum = 2 * 10 ∧
      reportedPercentage 10 2 (runProgressEvents (List.replicate 20 1)) = some 100 :=
  ⟨by decide,
    (progress_percentage_formula 10 2 (List.replicate 20 1)
      (by decide) (by decide)).2 (by decide)⟩

/-- Helper: a `min`-fold is below its seed and every element. -/
lemma foldl_min_spec (l : List ℚ) : ∀ a : ℚ,
    l.foldl min a ≤ a ∧ ∀ x ∈ l, l.foldl min a ≤ x := by
  induction l with
  | nil => intro a; exact ⟨le_refl a, by simp⟩
  | cons b t ih =>
    intro a
    rw [List.foldl_cons]
    obtain ⟨h1, h2⟩ := ih (min a b)
    refine ⟨le_trans h1 (min_le_left a b), ?_⟩
    intro x hx
    rcases List.mem_cons.mp hx with rfl | hx'
    · exact le_trans h1 (min_le_right a x)
    · exact h2 x hx'

/-- Helper: a `max`-fold is above its seed and every element. -/
lemma foldl_max_spec (l : List ℚ) : ∀ a : ℚ,
    a ≤ l.foldl max a ∧ ∀ x ∈ l, x ≤ l.foldl max a := by
  induction l with
  | nil => intro a; exact ⟨le_refl a, by simp⟩
  | cons b t ih =>
    intro a
    rw [List.foldl_cons]
    obtain ⟨h1, h2⟩ := ih (max a b)
    refine ⟨le_trans (le_max_left a b) h1, ?_⟩
    intro x hx
    rcases List.mem_cons.mp hx with rfl | hx'
    · exact le_trans (le_max_right a x) h1
    · exact h2 x hx'

/-- Helper: `listMin` bounds every member from below. -/
lemma listMin_le (l : List ℚ) (x : ℚ) (hx : x ∈ l) : listMin l ≤ x := by
  cases l with
  | nil => exact absurd hx (List.not_mem_nil x)
  | cons a t =>
    rw [listMin]
    rcases List.mem_cons.mp hx with rfl | hx'
    · exact (foldl_min_spec t x).1
    · exact (foldl_min_spec t a).2 x hx'

/-- Helper: `listMax` bounds every member from above. -/
lemma le_listMax (l : List ℚ) (x : ℚ) (hx : x ∈ l) : x ≤ listMax l := by
  cases l with
  | nil => exact absurd hx (List.not_mem_nil x)
  | cons a t =>
    rw [listMax]
    rcases List.mem_cons.mp hx with rfl | hx'
    · exact (foldl_max_spec t x).1
    · exact (foldl_max_spec t a).2 x hx'

/-- Helper: `np.interp` never leaves the range of its breakpoint
values: outside the breakpoints it clamps, inside it interpolates
convexly. -/
lemma npInterp_bound (lo hi : ℚ) :
    ∀ (pairs : List (ℚ × ℚ)) (x : ℚ), pairs ≠ [] →
      (∀ p ∈ pairs, lo ≤ p.2 ∧ p.2 ≤ hi) →
      lo ≤ npInterp x pairs ∧ npInterp x pairs ≤ hi
  | [], _, hne, _ => absurd rfl hne
  | [p], x, _, hb => by
    simp only [npInterp]
    exact hb p (by simp)
  | p :: q :: rest, x, _, hb => by
    simp only [npInterp]
    split
    · exact hb p (by simp)
    · split
      · next h1 h2 =>
        have hp := hb p (by simp)
        have hq := hb q (by simp)
        have hx0 : p.1 < x := not_le.mp h1
        have hlt : p.1 < q.1 := lt_of_lt_of_le hx0 h2
        have hd : 0 < q.1 - p.1 := sub_pos.mpr hlt
        have hval : p.2 + (x - p.1) * (q.2 - p.2) / (q.1 - p.1) =
            (1 - (x - p.1) / (q.1 - p.1)) * p.2 + ((x - p.1) / (q.1 - p.1)) * q.2 := by
          field_simp
          ring
        have ht0 : 0 ≤ (x - p.1) / (q.1 - p.1) :=
          div_nonneg (le_of_lt (sub_pos.mpr hx0)) (le_of_lt hd)
        have ht1 : (x - p.1) / (q.1 - p.1) ≤ 1 := by
          rw [div_le_one hd]
          linarith
        rw [hval]
        constructor
        · nlinarith [mul_nonneg (by linarith : (0 : ℚ) ≤ 1 - (x - p.1) / (q.1 - p.1))
              (by linarith [hp.1] : (0 : ℚ) ≤ p.2 - lo),
            mul_nonneg ht0 (by linarith [hq.1] : (0 : ℚ) ≤ q.2 - lo)]
        · nlinarith [mul_nonneg (by linarith : (0 : ℚ) ≤ 1 - (x - p.1) / (q.1 - p.1))
              (by linarith [hp.2] : (0 : ℚ) ≤ hi - p.2),
            mul_nonneg ht0 (by linarith [hq.2] : (0 : ℚ) ≤ hi - q.2)]
      · exact npInterp_bound lo hi (q :: rest) x (by simp)
          (fun r hr => hb r (List.mem_cons_of_mem p hr))

/-- Helper: the distinct sorted values come from the original list. -/
lemma mem_uniqueSorted (l : List ℚ) (x : ℚ) (hx : x ∈ uniqueSorted l) : x ∈ l := by
  rw [uniqueSorted] at hx
  exact (List.perm_insertionSort (· ≤ ·) l).mem_iff.mp (List.mem_dedup.mp hx)

/-- Helper: the distinct sorted values of a nonempty list are nonempty. -/
lemma uniqueSorted_ne_nil (l : List ℚ) (h : l ≠ []) : uniqueSorted l ≠ [] := by
  rw [uniqueSorted]
  intro hnil
  rw [List.dedup_eq_nil] at hnil
  have hp := List.perm_insertionSort (· ≤ ·) l
  rw [npSort] at hnil
  rw [hnil] at hp
  exact h hp.symm.eq_nil

/-- Helper: every pixel `match_histograms` produces lies between the
minimum and maximum of the template's values. -/
lemma match_histograms_mem_bound (source template : QSlice)
    (htm : template.flatten ≠ []) (x : ℚ)
    (hx : x ∈ (match_histograms source template).flatten) :
    listMin template.flatten ≤ x ∧ x ≤ listMax template.flatten := by
  simp only [match_histograms, List.mem_flatten, List.mem_map] at hx
  obtain ⟨row', ⟨row, _, rfl⟩, hxr⟩ := hx
  obtain ⟨p, _, rfl⟩ := List.mem_map.mp hxr
  apply npInterp_bound
  · intro hnil
    rw [List.map_eq_nil_iff] at hnil
    exact uniqueSorted_ne_nil template.flatten htm hnil
  · intro pr hpr
    obtain ⟨v, hv, rfl⟩ := List.mem_map.mp hpr
    exact ⟨listMin_le _ v (mem_uniqueSorted _ v hv),
      le_listMax _ v (mem_uniqueSorted _ v hv)⟩

/-- Helper: `match_histograms` preserves the slice shape. -/
lemma match_histograms_rect (r c : ℕ) (source template : QSlice)
    (h : RectSlice r c source) : RectSlice r c (match_histograms source template) := by
  obtain ⟨hlen, hrow⟩ := h
  constructor
  · simp [match_histograms, hlen]
  · intro row hmem
    simp only [match_histograms, List.mem_map] at hmem
    obtain ⟨row0, h0, rfl⟩ := hmem
    simp [hrow row0 h0]

/-- Helper: reflected indices stay in range for window offsets. -/
lemma reflectIdx_lt (n : ℕ) (z : ℤ) (hn : 0 < n) (h1 : -1 ≤ z) (h2 : z ≤ n) :
    reflectIdx n z < n := by
  rw [reflectIdx]
  split
  · omega
  · split
    · omega
    · omega

/-- Helper: a 3×3 neighborhood has nine entries. -/
lemma neighborhood3_length (m : QSlice) (i j : ℕ) :
    (neighborhood3 m i j).length = 9 := by
  simp [neighborhood3, Function.comp_def]

/-- Helper: every entry of a 3×3 reflected neighborhood of an in-range
pixel of a rectangular slice is a value of the slice. -/
lemma neighborhood3_mem (m : QSlice) (r c : ℕ) (hm : RectSlice r c m) (hr : 0 < r)
    (hc : 0 < c) (i j : ℕ) (hi : i < r) (hj : j < c) (x : ℚ)
    (hx : x ∈ neighborhood3 m i j) : x ∈ m.flatten := by
  simp only [neighborhood3, List.mem_flatten, List.mem_map] at hx
  obtain ⟨inner, ⟨di, hdi, rfl⟩, hxr⟩ := hx
  obtain ⟨dj, hdj, rfl⟩ := List.mem_map.mp hxr
  rw [List.mem_range] at hdi hdj
  have hmlen : m.length = r := hm.1
  have hri : reflectIdx m.length ((i : ℤ) + di - 1) < m.length := by
    rw [hmlen]
    apply reflectIdx_lt r _ hr <;> omega
  have hrow_mem : m.getD (reflectIdx m.length ((i : ℤ) + di - 1)) [] ∈ m :=
    getD_mem_of_lt m _ hri []
  have hrow_len : (m.getD (reflectIdx m.length ((i : ℤ) + di - 1)) []).length = c :=
    hm.2 _ hrow_mem
  have hm0 : (m.getD 0 []).length = c :=
    hm.2 _ (getD_mem_of_lt m 0 (by rw [hmlen]; exact hr) [])
  have hrj : reflectIdx (m.getD 0 []).length ((j : ℤ) + dj - 1) < c := by
    rw [hm0]
    apply reflectIdx_lt c _ hc <;> omega
  rw [getPixel]
  exact List.mem_flatten.mpr ⟨_, hrow_mem,
    getD_mem_of_lt _ _ (by rw [hrow_len]; exact hrj) 0⟩

/-- Helper: an in-range order statistic of a sorted copy is a member of
the original list. -/
lemma npSort_getD_mem (l : List ℚ) (k : ℕ) (hk : k < l.length) (d : ℚ) :
    (npSort l).getD k d ∈ l := by
  have hlen : (npSort l).length = l.length :=
    (List.perm_insertionSort (· ≤ ·) l).length_eq
  have hmem := getD_mem_of_lt (npSort l) k (by rw [hlen]; exact hk) d
  exact (List.perm_insertionSort (· ≤ ·) l).mem_iff.mp hmem

/-- Helper: every pixel of the median-filtered slice is one of the
input slice's values (3×3 reflected neighborhoods only ever read
in-range pixels). -/
lemma median_filter3_mem (m : QSlice) (r c : ℕ) (hm : RectSlice r c m) (hr : 0 < r)
    (hc : 0 < c) (x : ℚ) (hx : x ∈ (median_filter3 m).flatten) : x ∈ m.flatten := by
  simp only [median_filter3, List.mem_flatten, List.mem_map] at hx
  obtain ⟨row, ⟨i, hi, rfl⟩, hxr⟩ := hx
  obtain ⟨j, hj, rfl⟩ := List.mem_map.mp hxr
  rw [List.mem_range] at hi hj
  have h9 : (neighborhood3 m i j).length = 9 := neighborhood3_length m i j
  have hmem : (npSort (neighborhood3 m i j)).getD 4 0 ∈ neighborhood3 m i j :=
    npSort_getD_mem _ 4 (by rw [h9]; norm_num) 0
  have hm0 : (m.getD 0 []).length = c :=
    hm.2 _ (getD_mem_of_lt m 0 (by rw [hm.1]; exact hr) [])
  exact neighborhood3_mem m r c hm hr hc i j (by rw [← hm.1]; exact hi)
    (by rw [← hm0]; exact hj) _ hmem

/-- C6 counterexample: `process_channel` applies no clipping.  For a
valid 16-bit single-slice stack of constant value 300 the returned
array still holds 300 — outside the 8-bit `[0, 255]` range of the saved
output — and the saver's `astype(np.uint8)` wraps it to 44 instead of
clipping to 255.  (On a constant one-pixel slice every correct Gaussian
filter and skeletonization act as the identity, so instantiating the
`gauss`/`skel` parameters with `id` is faithful to the library calls.) -/
theorem process_channel_no_clip_counterexample :
    process_channel id id [[[(300 : ℚ)]]] = [[[(300 : ℚ)]]] ∧
      ¬ ((300 : ℚ) ≤ 255) ∧ uint8OfRat 300 = 44 ∧ uint8OfRat 300 ≠ 255 := by
  refine ⟨by decide, by decide, by decide, by decide⟩

/-- C6 (amended): every element of the 3D array returned by
`process_channel` lies between the minimum and the maximum of the
chosen reference slice's values — hence within the representable range
of the *input* bit depth — but no clipping to the output bit depth is
performed anywhere: the final `astype(np.uint8)` in the saver wraps
out-of-range values instead of clipping them. -/
theorem process_channel_in_reference_range (gauss : QSlice → QSlice)
    (skel : List (List Bool) → List (List Bool)) (channel : QStack) (r c : ℕ)
    (hr : 0 < r) (hc : 0 < c) (hrect : ∀ sl ∈ channel, RectSlice r c sl)
    (hne : channel ≠ []) :
    ∀ x ∈ (process_channel gauss skel channel).flatten.flatten,
      listMin (channel.getD (find_reference gauss skel 20 1 channel) []).flatten ≤ x ∧
        x ≤ listMax (channel.getD (find_reference gauss skel 20 1 channel) []).flatten := by
  intro x hx
  have hrefmem : channel.getD (find_reference gauss skel 20 1 channel) [] ∈ channel :=
    getD_mem_of_lt channel _ (find_reference_spec gauss skel 20 1 channel hne).1 []
  have htmplrect : RectSlice r c (channel.getD (find_reference gauss skel 20 1 channel) []) :=
    hrect _ hrefmem
  have htmflat : (channel.getD (find_reference gauss skel 20 1 channel) []).flatten ≠ [] := by
    intro hnil
    rw [List.flatten_eq_nil_iff] at hnil
    have h0 : (channel.getD (find_reference gauss skel 20 1 channel) []).getD 0 [] ∈
        channel.getD (find_reference gauss skel 20 1 channel) [] :=
      getD_mem_of_lt _ 0 (by rw [htmplrect.1]; exact hr) []
    have hlen0 := htmplrect.2 _ h0
    rw [hnil _ h0] at hlen0
    exact absurd hlen0.symm (Nat.pos_iff_ne_zero.mp hc)
  simp only [process_channel, List.mem_flatten, List.mem_map] at hx
  obtain ⟨row, ⟨sl, ⟨img, himg, rfl⟩, hrow⟩, hxrow⟩ := hx
  have hxmf : x ∈ (median_filter3 (match_histograms img
      (channel.getD (find_reference gauss skel 20 1 channel) []))).flatten :=
    List.mem_flatten.mpr ⟨row, hrow, hxrow⟩
  have hmatched : x ∈ (match_histograms img
      (channel.getD (find_reference gauss skel 20 1 channel) [])).flatten :=
    median_filter3_mem _ r c
      (match_histograms_rect r c img _ (hrect img himg)) hr hc x hxmf
  exact match_histograms_mem_bound img _ htmflat x hmatched

/-- Witness for C6 (amended) at a concrete single-slice stack of
constant value 300 (a 16-bit sample): 300 is an element of the output
and lies between the reference slice's min and max. -/
theorem process_channel_in_reference_range_witness :
    (300 : ℚ) ∈ (process_channel id id [[[(300 : ℚ)]]]).flatten.flatten ∧
      (listMin (([[[(300 : ℚ)]]] : QStack).getD
          (find_reference id id 20 1 [[[(300 : ℚ)]]]) []).flatten ≤ 300 ∧
        (300 : ℚ) ≤ listMax (([[[(300 : ℚ)]]] : QStack).getD
          (find_reference id id 20 1 [[[(300 : ℚ)]]]) []).flatten) :=
  ⟨by decide,
    process_channel_in_reference_range id id [[[(300 : ℚ)]]] 1 1
      (by decide) (by decide)
      (by
        intro sl hsl
        rw [List.mem_singleton] at hsl
        subst hsl
        exact ⟨rfl, by
          intro row hrow
          rw [List.mem_singleton] at hrow
          subst hrow
          rfl⟩)
      (by decide) 300 (by decide)⟩

end TDA
